import Mathlib

/-!
# Verification of the image-statistics and value-normalization core of `ImageUtil.cpp`

This file shallowly embeds the statistics / histogram / percentile / save-conversion
core of `src/ImageUtil.cpp` (namespace `CppOpenCVUtil::ImageUtil`) and proves or
refutes the specification claims about it.

Modelling conventions:
* A pixel buffer (`cv::Mat`) is a tagged flat list of samples in row-major order;
  the row/column structure is irrelevant to every operation modelled here (all loops
  visit every sample exactly once in row-major order).
* 32-bit float samples are modelled as `Option ℚ`, with `none` playing the role of
  NaN and `some q` an ordinary (finite) value.  Float arithmetic is modelled by exact
  rational arithmetic; concrete inputs used in theorems are chosen so that the float
  computations of the source are exact.
* Fallible code (OpenCV assertions, `bail`, `throw std::runtime_error`, and
  out-of-range `std::vector::operator[]`, which is undefined behavior) is modelled
  with `Except Err`.
* External OpenCV primitives (`cv::minMaxLoc`, `cv::calcHist`, `cv::convertScaleAbs`,
  `cv::cvtColor`, `cv::Mat::convertTo`) are modelled from their documented behavior;
  each model carries a comment.  `cv::minMaxLoc` is modelled as the NaN-propagating
  reduction the source's own comment describes ("happens on mac os when any nan's in
  the image"), which is exactly the situation the fallback scan exists for.
-/

/-- A 32-bit float sample: `none` is NaN, `some q` a finite value. -/
abbrev F32 := Option ℚ

/-- Error outcomes of the embedded code.
`bail` models `CppBaseUtil::bail` (declared in `MiscUtil.h`, outside `src/`; per the
spec's §7 it surfaces an error synchronously to the caller), `rte` models
`throw std::runtime_error`, `invalidArgument` models the spec's `InvalidArgument`
(empty counts passed to the percentile finder), and `oob` models out-of-range
`std::vector::operator[]` (undefined behavior in the source). -/
inductive Err
  | bail (msg : String)
  | rte (msg : String)
  | invalidArgument
  | oob
  deriving DecidableEq, Repr

/-- The OpenCV pixel type codes used by the core. -/
inductive ImgType
  | CV_8U
  | CV_16U
  | CV_32S
  | CV_32F
  | CV_8UC3
  | CV_8UC4
  deriving DecidableEq, BEq, Repr

/-- A pixel buffer (`cv::Mat`): a tagged flat list of samples, row-major. -/
inductive Img
  | u8 (data : List ℕ)
  | u16 (data : List ℕ)
  | s32 (data : List ℤ)
  | f32 (data : List F32)
  | u8c3 (data : List (ℕ × ℕ × ℕ))
  | u8c4 (data : List (ℕ × ℕ × ℕ × ℕ))
  deriving DecidableEq, Repr

/-- `cv::Mat::type()`. -/
def Img.type : Img → ImgType
  | .u8 _ => .CV_8U
  | .u16 _ => .CV_16U
  | .s32 _ => .CV_32S
  | .f32 _ => .CV_32F
  | .u8c3 _ => .CV_8UC3
  | .u8c4 _ => .CV_8UC4

/-- `cv::Mat::channels()`. -/
def Img.channels : Img → ℕ
  | .u8c3 _ => 3
  | .u8c4 _ => 4
  | _ => 1

/-- The samples of a single-channel buffer, viewed in the float domain
(`none` for a multi-channel buffer). Integer samples are never NaN. -/
def samples1 : Img → Option (List F32)
  | .u8 data => some (data.map fun v => some (v : ℚ))
  | .u16 data => some (data.map fun v => some (v : ℚ))
  | .s32 data => some (data.map fun v => some (v : ℚ))
  | .f32 data => some data
  | _ => none

/-- Linear scan over the samples tracking running min/max and skipping NaN, as in the
fallback loop of `imgMinMax` (`FLT_MAX`/`-FLT_MAX` sentinels and the final
`highVal < lowVal` check are modelled by the `Option` accumulator: `none` means no
valid sample seen yet). -/
def scanMinMaxAux : Option (ℚ × ℚ) → List F32 → Option (ℚ × ℚ)
  | acc, [] => acc
  | acc, none :: rest => scanMinMaxAux acc rest
  | none, some q :: rest => scanMinMaxAux (some (q, q)) rest
  | some (lo, hi), some q :: rest => scanMinMaxAux (some (min lo q, max hi q)) rest

/-- Min/max over the non-NaN samples of a list, `none` if there are none. -/
def scanMinMax (xs : List F32) : Option (ℚ × ℚ) :=
  scanMinMaxAux none xs

/-- Modelled external: `cv::minMaxLoc`. It asserts on an empty or multi-channel
matrix; on a 32F matrix containing NaN it reports NaN (the platform behavior the
source's fallback exists for, per its comment); otherwise it returns the exact
min/max of the samples. -/
def minMaxLoc (img : Img) : Except Err (F32 × F32) :=
  match samples1 img with
  | none => .error (.bail "minMaxLoc: multi-channel input")
  | some xs =>
    if xs.isEmpty then .error (.bail "minMaxLoc: empty input")
    else if xs.any (fun v => v.isNone) then .ok (none, none)
    else
      match scanMinMax xs with
      | some (lo, hi) => .ok (some lo, some hi)
      | none => .ok (none, none)

/-- `ImageUtil::imgMinMax` (ImageUtil.cpp:146): fast `cv::minMaxLoc`, then, if either
result is NaN, `bail` on non-32F images and otherwise an exact linear fallback scan
skipping NaN; all-NaN yields `(NaN, NaN)`. -/
def imgMinMax (img : Img) : Except Err (F32 × F32) :=
  match minMaxLoc img with
  | .error e => .error e
  | .ok mm =>
    if mm.1.isNone || mm.2.isNone then
      match img with
      | .f32 data =>
        match scanMinMax data with
        | some (lo, hi) => .ok (some lo, some hi)
        | none => .ok (none, none)
      | _ => .error (.bail "minmax gave nan on non-32f image")
    else .ok mm

/-- `cvRound`: round to nearest, ties to even (the default x86 FPU rounding used by
OpenCV's `cvRound`). -/
def cvRoundQ (q : ℚ) : ℤ :=
  if q - ⌊q⌋ < 1/2 then ⌊q⌋
  else if (1/2 : ℚ) < q - ⌊q⌋ then ⌊q⌋ + 1
  else if ⌊q⌋ % 2 = 0 then ⌊q⌋ else ⌊q⌋ + 1

/-- `saturate_cast<uchar>` on an integer: clamp to `[0, 255]`. -/
def satU8 (z : ℤ) : ℕ :=
  (min 255 (max 0 z)).toNat

/-- Modelled external: one sample of `cv::convertScaleAbs`, which computes
`saturate_cast<uchar>(|alpha * v + beta|)` per sample. A NaN sample is modelled as
producing 0 (`cvRound` of NaN saturates to 0 on the reference platform). -/
def convertScaleAbsSample (alpha beta : ℚ) (v : F32) : ℕ :=
  match v with
  | none => 0
  | some q => satU8 (cvRoundQ |alpha * q + beta|)

/-- `ImageUtil::imgTo8u` (ImageUtil.cpp:199): if `highVal <= lowVal` the range is
considered unset and the image's own min/max are substituted; then
`alpha = 255 / (highVal - lowVal)`, `beta = -alpha * lowVal`, and
`cv::convertScaleAbs(img, dst, alpha, beta)`.
Out-of-model corners (never exercised by the theorems below): a NaN substituted
range (all-NaN input) feeds NaN arithmetic into `convertScaleAbs`, and a
multi-channel input is not modelled; both are mapped to `Err.bail`. -/
def imgTo8u (img : Img) (lowVal highVal : ℚ) : Except Err Img :=
  match (if highVal ≤ lowVal then
          match imgMinMax img with
          | .error e => .error e
          | .ok (some a, some b) => .ok (a, b)
          | .ok _ => .error (.bail "model: NaN range in imgTo8u")
        else .ok (lowVal, highVal) : Except Err (ℚ × ℚ)) with
  | .error e => .error e
  | .ok (lo, hi) =>
    match samples1 img with
    | none => .error (.bail "model: convertScaleAbs on multi-channel not modelled")
    | some xs =>
      .ok (.u8 (xs.map (convertScaleAbsSample (255 / (hi - lo)) (-(255 / (hi - lo)) * lo))))

/-- The amended claim C5's rescale, stated from the spec's words (with the clamp
corrected to `convertScaleAbs`'s absolute value): if `highVal ≤ lowVal` substitute
the buffer's own min/max over the non-NaN samples; then
`scale = 255 / (highVal - lowVal)`, `offset = -scale * lowVal`, and per sample
`output = clamp(round(|scale * input + offset|), 0, 255)`; `none` when no range can
be determined (no valid sample to substitute from). -/
def rescaleToByteRangeSpec (xs : List F32) (lowVal highVal : ℚ) : Option (List ℕ) :=
  (if highVal ≤ lowVal then scanMinMax xs else some (lowVal, highVal)).map fun r =>
    xs.map fun v =>
      match v with
      | none => 0
      | some q =>
        (min 255 (max 0 (cvRoundQ |255 / (r.2 - r.1) * q + -(255 / (r.2 - r.1)) * r.1|))).toNat

/-- `counts[i]++` on a `std::vector<int>`; an out-of-range index is undefined
behavior in the source and is modelled as `Err.oob`. -/
def bumpAt (counts : List ℕ) (i : ℕ) : Except Err (List ℕ) :=
  if h : i < counts.length then .ok (counts.set i (counts.get ⟨i, h⟩ + 1))
  else .error .oob

/-- The counting loop shared by both `histInt` overloads: for every sample `v`,
increment slot `v >> shift` (`shift = 0` for the no-shift overload, whose
`counts[ps[x]]++` is `counts[v >> 0]++`). -/
def histCountLoop (vals : List ℕ) (shift : ℕ) (counts : List ℕ) : Except Err (List ℕ) :=
  match vals with
  | [] => .ok counts
  | v :: rest =>
    match bumpAt counts (v >>> shift) with
    | .error e => .error e
    | .ok counts2 => histCountLoop rest shift counts2

/-- `ImageUtil::histInt` (ImageUtil.cpp:239), the no-shift overload: 256 slots for
CV_8U, 65536 for CV_16U, `counts[value]++` per sample; other types `bail`. -/
def histInt (img : Img) : Except Err (List ℕ) :=
  match img with
  | .u8 data => histCountLoop data 0 (List.replicate 256 0)
  | .u16 data => histCountLoop data 0 (List.replicate 65536 0)
  | _ => .error (.bail "histInt: Type not handled yet.")

/-- `ImageUtil::histInt` (ImageUtil.cpp:367), the bit-shift overload: `256 >> shift`
(resp. `65536 >> shift`) slots and `counts[value >> shift]++` per sample. -/
def histIntShift (img : Img) (binShift : ℕ) : Except Err (List ℕ) :=
  match img with
  | .u8 data => histCountLoop data binShift (List.replicate (256 >>> binShift) 0)
  | .u16 data => histCountLoop data binShift (List.replicate (65536 >>> binShift) 0)
  | _ => .error (.bail "histInt: Type not handled yet.")

/-- The bin a sample lands in under `cv::calcHist`'s uniform binning of `[lo, hi)`
into `n` equal bins. -/
def binIndex (lo hi : ℚ) (n : ℕ) (v : ℚ) : ℤ :=
  ⌊(v - lo) * (n : ℚ) / (hi - lo)⌋

/-- Counts of a uniform `n`-bin histogram of the non-NaN samples over `[lo, hi)`:
bin `i` counts the samples `v` with `lo ≤ v < hi` and `binIndex lo hi n v = i`
(NaN samples never satisfy a comparison and are not counted). -/
def calcHistCounts (xs : List F32) (n : ℕ) (lo hi : ℚ) : List ℕ :=
  (List.range n).map fun i : ℕ =>
    (xs.filterMap id).countP fun v => decide (lo ≤ v) && decide (v < hi) &&
      (binIndex lo hi n v == (i : ℤ))

/-- Modelled external: `cv::calcHist` with one uniform dimension over `[lo, hi)`;
it supports 8U, 16U and 32F single-channel inputs and asserts otherwise. -/
def calcHist (img : Img) (n : ℕ) (lo hi : ℚ) : Except Err (List ℕ) :=
  match img with
  | .u8 data => .ok (calcHistCounts (data.map fun v => some (v : ℚ)) n lo hi)
  | .u16 data => .ok (calcHistCounts (data.map fun v => some (v : ℚ)) n lo hi)
  | .f32 data => .ok (calcHistCounts data n lo hi)
  | _ => .error (.bail "calcHist: unsupported input type")

/-- `ImageUtil::histFloat` (ImageUtil.cpp:289): NaN `minVal` defaults to 0; NaN
`maxVal` defaults to the image maximum via `imgMinMax`; if the resolved `maxVal` is
still NaN (no non-NaN samples) return empty bins and counts; if `maxVal <= minVal`
return a single bin at `minVal` with count 0; otherwise `binCount` lower edges at
`minVal + i * binSize`, and counts from `cv::calcHist` over the upper bound widened
by `0.1 * binSize`.  Returns `(bins, counts)`. -/
def histFloat (img : Img) (binCount : ℕ) (minVal0 maxVal0 : F32) :
    Except Err (List ℚ × List ℕ) :=
  let minVal : ℚ := match minVal0 with | none => 0 | some q => q
  match (match maxVal0 with
         | some q => .ok (some q)
         | none =>
           match imgMinMax img with
           | .error e => .error e
           | .ok mm => .ok mm.2 : Except Err F32) with
  | .error e => .error e
  | .ok none => .ok ([], [])
  | .ok (some maxVal) =>
    if maxVal ≤ minVal then .ok ([minVal], [0])
    else
      let binSize : ℚ := (maxVal - minVal) / (binCount : ℚ)
      let bins := (List.range binCount).map fun i : ℕ => minVal + (i : ℚ) * binSize
      match calcHist img binCount minVal (maxVal + (1/10) * binSize) with
      | .error e => .error e
      | .ok counts => .ok (bins, counts)

/-- Modelled from the spec: `findPercentileInHist` is declared in `MathUtil.h`,
whose source is not part of this repository snapshot.  Per spec §4.3 it walks the
bins in order accumulating a running sum and returns the index of the first bin at
which the running sum reaches or exceeds `target`; `i - 1` on exhaustion makes the
top-level call return the last index when the threshold was never met (unreachable
for percentiles ≤ 100). -/
def firstReachAux : List ℕ → ℚ → ℚ → ℕ → ℕ
  | [], _, _, i => i - 1
  | c :: rest, target, acc, i =>
    if target ≤ acc + (c : ℚ) then i else firstReachAux rest target (acc + (c : ℚ)) (i + 1)

/-- Modelled from the spec (§4.3): `findPercentileInHist(counts, percentile)`
computes `target = percentile/100 * sum(counts)` and returns the index of the first
bin whose running sum reaches or exceeds `target`; an empty `counts` is an
`InvalidArgument` precondition violation. -/
def findPercentileInHist (counts : List ℕ) (pct : ℚ) : Except Err ℕ :=
  if counts.isEmpty then .error .invalidArgument
  else .ok (firstReachAux counts (pct / 100 * (counts.sum : ℚ)) 0 0)

/-- `std::vector::operator[]` read; out of range is undefined behavior (`Err.oob`). -/
def vecGet (l : List ℚ) (i : ℕ) : Except Err ℚ :=
  if h : i < l.length then .ok (l.get ⟨i, h⟩) else .error .oob

/-- `ImageUtil::histPercentilesInt` (ImageUtil.cpp:414): 8U/16U only; exact integer
histogram, then the percentile finder twice. -/
def histPercentilesInt (img : Img) (lowPct highPct : ℚ) : Except Err (ℕ × ℕ) :=
  if img.type == .CV_8U || img.type == .CV_16U then
    match histInt img with
    | .error e => .error e
    | .ok counts =>
      match findPercentileInHist counts lowPct, findPercentileInHist counts highPct with
      | .ok a, .ok b => .ok (a, b)
      | .error e, _ => .error e
      | _, .error e => .error e
  else .error (.bail "histPercentiles: Unsupported image type")

/-- `ImageUtil::histPercentiles32f` (ImageUtil.cpp:437): 32F only; a 256-bin
`histFloat` with both range endpoints NaN (so `minVal` defaults to 0 and `maxVal`
to the image maximum), the percentile finder twice, then `bins[lowIdx]` and
`bins[highIdx]`. -/
def histPercentiles32f (img : Img) (lowPct highPct : ℚ) : Except Err (ℚ × ℚ) :=
  match img with
  | .f32 _ =>
    (match histFloat img 256 none none with
     | .error e => .error e
     | .ok (bins, counts) =>
       match findPercentileInHist counts lowPct, findPercentileInHist counts highPct with
       | .ok lowIdx, .ok highIdx =>
         match vecGet bins lowIdx, vecGet bins highIdx with
         | .ok lo, .ok hi => .ok (lo, hi)
         | .error e, _ => .error e
         | _, .error e => .error e
       | .error e, _ => .error e
       | _, .error e => .error e)
  | _ => .error (.bail "histPercentiles32f: Unsupported image type")

/-- `ImageUtil::histPercentiles` (ImageUtil.cpp:464): dispatch on the image type;
8U/16U to the integer version (results cast to float), 32F to the float version,
anything else `bail`s. -/
def histPercentiles (img : Img) (lowPct highPct : ℚ) : Except Err (ℚ × ℚ) :=
  if img.type == .CV_8U || img.type == .CV_16U then
    match histPercentilesInt img lowPct highPct with
    | .error e => .error e
    | .ok t => .ok ((t.1 : ℚ), (t.2 : ℚ))
  else if img.type == .CV_32F then histPercentiles32f img lowPct highPct
  else .error (.bail "histPercentiles: Unsupported image type")

/-- Modelled external: `cv::cvtColor(img, dst, COLOR_GRAY2BGR)` replicates the single
channel into three.  In `convertForSave` this is only reachable for CV_8U input (the
16U/32S/32F cases of the `ppm` branch are dead code: those types are captured by the
earlier rescale-to-8u branch, since `ppm` is not tiff), so only the 8U case is
modelled. -/
def cvtGray2BGR : Img → Except Err Img
  | .u8 data => .ok (.u8c3 (data.map fun v => (v, v, v)))
  | _ => .error (.bail "model: cvtColor GRAY2BGR only modelled for CV_8U")

/-- Modelled external: `cv::cvtColor(img, dst, COLOR_BGRA2BGR)` drops the alpha
channel. -/
def cvtBGRA2BGR : Img → Except Err Img
  | .u8c4 data => .ok (.u8c3 (data.map fun p => (p.1, p.2.1, p.2.2.1)))
  | _ => .error (.bail "model: cvtColor BGRA2BGR only modelled for CV_8UC4")

/-- The fixed-point luma OpenCV uses for 8-bit `COLOR_BGR2GRAY`
(coefficients 0.114/0.587/0.299 scaled by 2^14, rounding added). -/
def grayOf (b g r : ℕ) : ℕ :=
  (1868 * b + 9617 * g + 4899 * r + 8192) >>> 14

/-- Modelled external: `cv::cvtColor(img, dst, COLOR_BGR2GRAY)` on 8UC3. -/
def cvtBGR2Gray : Img → Except Err Img
  | .u8c3 data => .ok (.u8 (data.map fun p => grayOf p.1 p.2.1 p.2.2))
  | _ => .error (.bail "model: cvtColor BGR2GRAY only modelled for CV_8UC3")

/-- Modelled external: `cv::cvtColor(img, dst, COLOR_BGRA2GRAY)` on 8UC4. -/
def cvtBGRA2Gray : Img → Except Err Img
  | .u8c4 data => .ok (.u8 (data.map fun p => grayOf p.1 p.2.1 p.2.2.1))
  | _ => .error (.bail "model: cvtColor BGRA2GRAY only modelled for CV_8UC4")

/-- Modelled external: `img.convertTo(dst, CV_8UC1)` keeps the values of an 8U input
(a plain element copy into a fresh buffer) and otherwise saturate-casts each sample
to `[0, 255]` (float samples are `cvRound`ed first; NaN saturates to 0).
Multi-channel inputs never reach this call in `convertForSave`. -/
def convertTo8u : Img → Except Err Img
  | .u8 data => .ok (.u8 data)
  | .u16 data => .ok (.u8 (data.map fun v => satU8 (v : ℤ)))
  | .s32 data => .ok (.u8 (data.map fun v => satU8 v))
  | .f32 data =>
    .ok (.u8 (data.map fun v => match v with | none => 0 | some q => satU8 (cvRoundQ q)))
  | _ => .error (.bail "model: convertTo CV_8UC1 on multi-channel not modelled")

/-- Modelled external: `img.convertTo(dst, CV_32F)` on a CV_32S input (the only use
in `convertForSave`).  Large 32-bit integers that are not exactly representable in
float are out of the rational model (no theorem below inspects these values). -/
def convertToF32 : Img → Except Err Img
  | .s32 data => .ok (.f32 (data.map fun v => some (v : ℚ)))
  | _ => .error (.bail "model: convertTo CV_32F only modelled for CV_32S")

/-- Normalized file extensions (`getNormalizedExt`, from `StringUtil` outside this
snapshot, strips an optional leading period; the model takes the already-normalized
token, which is how every claim states its inputs). -/
def isTiffExt (ext : String) : Bool :=
  ext == "tif" || ext == "tiff"

/-- `ImageUtil::convertForSave` (ImageUtil.cpp:670): the per-target-format
conversion policy.  16U/32S/32F to a non-tiff target are auto-ranged to 8u via
1st/99th `histPercentiles` and `imgTo8u`; 32S to tiff is cast to 32F; `ppm` needs
BGR (replicate for 8U, no-op for 8UC3, drop alpha for 8UC4, otherwise throw);
`pbm`/`pgm` need 8UC1 (`convertTo` for single-channel types, gray conversion for
8UC3/8UC4, otherwise throw); anything else is a no-op with `dst = img`.
Returns `(dst, isChanged)`. -/
def convertForSave (img : Img) (ext : String) : Except Err (Img × Bool) :=
  if (img.type == .CV_16U || img.type == .CV_32S || img.type == .CV_32F)
      && !isTiffExt ext then
    match histPercentiles img 1 99 with
    | .error e => .error e
    | .ok t =>
      match imgTo8u img t.1 t.2 with
      | .error e => .error e
      | .ok dst => .ok (dst, true)
  else if img.type == .CV_32S && isTiffExt ext then
    match convertToF32 img with
    | .error e => .error e
    | .ok dst => .ok (dst, true)
  else if ext == "ppm" then
    if img.type == .CV_8U || img.type == .CV_16U || img.type == .CV_32S
        || img.type == .CV_32F then
      match cvtGray2BGR img with
      | .error e => .error e
      | .ok dst => .ok (dst, true)
    else if img.type == .CV_8UC3 then .ok (img, false)
    else if img.type == .CV_8UC4 then
      match cvtBGRA2BGR img with
      | .error e => .error e
      | .ok dst => .ok (dst, true)
    else .error (.rte "Unhandled input image type for ppm output.")
  else if ext == "pbm" || ext == "pgm" then
    if img.type == .CV_8U || img.type == .CV_16U || img.type == .CV_32S
        || img.type == .CV_32F then
      match convertTo8u img with
      | .error e => .error e
      | .ok dst => .ok (dst, true)
    else if img.type == .CV_8UC3 then
      match cvtBGR2Gray img with
      | .error e => .error e
      | .ok dst => .ok (dst, true)
    else if img.type == .CV_8UC4 then
      match cvtBGRA2Gray img with
      | .error e => .error e
      | .ok dst => .ok (dst, true)
    else .error (.rte "Unhandled input image type for pbm output.")
  else .ok (img, false)


/-! ## Helper lemmas about the min/max scan -/

theorem scanMinMaxAux_nil (acc : Option (ℚ × ℚ)) : scanMinMaxAux acc [] = acc := by
  cases acc with
  | none => rfl
  | some p => obtain ⟨a, b⟩ := p; rfl

theorem scanMinMaxAux_cons_none (acc : Option (ℚ × ℚ)) (rest : List F32) :
    scanMinMaxAux acc (none :: rest) = scanMinMaxAux acc rest := by
  cases acc with
  | none => rfl
  | some p => obtain ⟨a, b⟩ := p; rfl

theorem scanMinMaxAux_all_none (xs : List F32) (acc : Option (ℚ × ℚ))
    (h : ∀ v ∈ xs, v = none) : scanMinMaxAux acc xs = acc := by
  induction xs generalizing acc with
  | nil => exact scanMinMaxAux_nil acc
  | cons x rest ih =>
    have hx : x = none := h x (by simp)
    subst hx
    rw [scanMinMaxAux_cons_none]
    exact ih acc fun v hv => h v (by simp [hv])

theorem scanMinMaxAux_isSome (xs : List F32) (acc : Option (ℚ × ℚ))
    (h : acc.isSome ∨ ∃ q : ℚ, (some q : F32) ∈ xs) : (scanMinMaxAux acc xs).isSome := by
  induction xs generalizing acc with
  | nil =>
    rw [scanMinMaxAux_nil]
    rcases h with h | ⟨q, hq⟩
    · exact h
    · simp at hq
  | cons x rest ih =>
    cases x with
    | none =>
      rw [scanMinMaxAux_cons_none]
      rcases h with h | ⟨q, hq⟩
      · exact ih acc (Or.inl h)
      · exact ih acc (Or.inr ⟨q, by simpa using hq⟩)
    | some q =>
      cases acc with
      | none => exact ih (some (q, q)) (Or.inl rfl)
      | some p =>
        obtain ⟨a, b⟩ := p
        exact ih (some (min a q, max b q)) (Or.inl rfl)

theorem scanMinMaxAux_bounds (xs : List F32) (acc : Option (ℚ × ℚ)) (lo hi : ℚ)
    (h : scanMinMaxAux acc xs = some (lo, hi)) :
    (∀ q : ℚ, (some q : F32) ∈ xs → lo ≤ q ∧ q ≤ hi) ∧
    (∀ a b : ℚ, acc = some (a, b) → lo ≤ a ∧ b ≤ hi) := by
  induction xs generalizing acc with
  | nil =>
    rw [scanMinMaxAux_nil] at h
    refine ⟨fun q hq => by simp at hq, fun a b hab => ?_⟩
    subst hab
    injection h with h
    cases h
    exact ⟨le_refl _, le_refl _⟩
  | cons x rest ih =>
    cases x with
    | none =>
      rw [scanMinMaxAux_cons_none] at h
      obtain ⟨hmem, hacc⟩ := ih acc h
      refine ⟨fun q hq => ?_, hacc⟩
      rcases List.mem_cons.mp hq with hq | hq
      · exact absurd hq (by simp)
      · exact hmem q hq
    | some q0 =>
      cases acc with
      | none =>
        obtain ⟨hmem, hacc⟩ := ih (some (q0, q0)) h
        have hq0 := hacc q0 q0 rfl
        refine ⟨fun q hq => ?_, fun a b hab => by simp at hab⟩
        rcases List.mem_cons.mp hq with hq | hq
        · obtain rfl : q = q0 := by simpa using hq
          exact hq0
        · exact hmem q hq
      | some p =>
        obtain ⟨a0, b0⟩ := p
        obtain ⟨hmem, hacc⟩ := ih (some (min a0 q0, max b0 q0)) h
        have hq0 := hacc (min a0 q0) (max b0 q0) rfl
        refine ⟨fun q hq => ?_, fun a b hab => ?_⟩
        · rcases List.mem_cons.mp hq with hq | hq
          · obtain rfl : q = q0 := by simpa using hq
            exact ⟨le_trans hq0.1 (min_le_right _ _), le_trans (le_max_right _ _) hq0.2⟩
          · exact hmem q hq
        · injection hab with hab
          cases hab
          exact ⟨le_trans hq0.1 (min_le_left _ _), le_trans (le_max_left _ _) hq0.2⟩

theorem scanMinMax_bounds (xs : List F32) (lo hi : ℚ) (h : scanMinMax xs = some (lo, hi)) :
    ∀ q : ℚ, (some q : F32) ∈ xs → lo ≤ q ∧ q ≤ hi :=
  (scanMinMaxAux_bounds xs none lo hi h).1

theorem scanMinMax_ne_nil (xs : List F32) (p : ℚ × ℚ) (h : scanMinMax xs = some p) :
    xs ≠ [] := by
  intro hnil
  subst hnil
  simp [scanMinMax, scanMinMaxAux_nil] at h

theorem minMaxLoc_char (img : Img) (xs : List F32) (hx : samples1 img = some xs)
    (hne : xs ≠ []) :
    minMaxLoc img = (if (none : F32) ∈ xs then .ok (none, none)
      else match scanMinMax xs with
        | some (a, b) => .ok (some a, some b)
        | none => .ok (none, none)) := by
  have hnotempty : xs.isEmpty = false := by simpa [List.isEmpty_iff] using hne
  by_cases hmem : (none : F32) ∈ xs
  · have hany : xs.any (fun v => v.isNone) = true :=
      List.any_eq_true.mpr ⟨none, hmem, rfl⟩
    simp [minMaxLoc, hx, hnotempty, hany, hmem]
  · have hany : xs.any (fun v => v.isNone) = false := by
      rw [List.any_eq_false]
      intro v hv
      cases v with
      | none => exact absurd hv hmem
      | some q => simp
    simp [minMaxLoc, hx, hnotempty, hany, hmem]

theorem exists_some_of_no_none (xs : List F32) (hne : xs ≠ [])
    (hmem : (none : F32) ∉ xs) : ∃ q : ℚ, (some q : F32) ∈ xs := by
  cases xs with
  | nil => exact absurd rfl hne
  | cons x rest =>
    cases x with
    | none => exact absurd (by simp) hmem
    | some q => exact ⟨q, by simp⟩

theorem imgMinMax_eq_scan_of_no_nan (img : Img) (xs : List F32)
    (hx : samples1 img = some xs) (hne : xs ≠ []) (hmem : (none : F32) ∉ xs) :
    imgMinMax img = .ok (match scanMinMax xs with
      | some (a, b) => (some a, some b)
      | none => (none, none)) := by
  have hIs := scanMinMaxAux_isSome xs none (Or.inr (exists_some_of_no_none xs hne hmem))
  obtain ⟨⟨a, b⟩, hscan⟩ := Option.isSome_iff_exists.mp hIs
  have hscan2 : scanMinMax xs = some (a, b) := hscan
  have hmml := minMaxLoc_char img xs hx hne
  rw [if_neg hmem, hscan2] at hmml
  simp [imgMinMax, hmml, hscan2]

/-- On a nonempty single-channel image, `imgMinMax` (fast path plus NaN fallback)
computes exactly the NaN-skipping min/max scan of the samples. -/
theorem imgMinMax_eq_scan (img : Img) (xs : List F32) (hx : samples1 img = some xs)
    (hne : xs ≠ []) :
    imgMinMax img = .ok (match scanMinMax xs with
      | some (a, b) => (some a, some b)
      | none => (none, none)) := by
  cases img with
  | f32 data =>
    have hxs : xs = data := by simpa [samples1] using hx.symm
    subst hxs
    by_cases hmem : (none : F32) ∈ xs
    · have hmml := minMaxLoc_char (Img.f32 xs) xs hx hne
      rw [if_pos hmem] at hmml
      cases hscan : scanMinMax xs with
      | none => simp [imgMinMax, hmml, hscan]
      | some p => obtain ⟨a, b⟩ := p; simp [imgMinMax, hmml, hscan]
    · exact imgMinMax_eq_scan_of_no_nan _ xs hx hne hmem
  | u8 data =>
    have hxs : xs = data.map fun w => (some (w : ℚ) : F32) := by
      simpa [samples1] using hx.symm
    subst hxs
    exact imgMinMax_eq_scan_of_no_nan _ _ hx hne (by simp)
  | u16 data =>
    have hxs : xs = data.map fun w => (some (w : ℚ) : F32) := by
      simpa [samples1] using hx.symm
    subst hxs
    exact imgMinMax_eq_scan_of_no_nan _ _ hx hne (by simp)
  | s32 data =>
    have hxs : xs = data.map fun w => (some (w : ℚ) : F32) := by
      simpa [samples1] using hx.symm
    subst hxs
    exact imgMinMax_eq_scan_of_no_nan _ _ hx hne (by simp)
  | u8c3 data => simp [samples1] at hx
  | u8c4 data => simp [samples1] at hx

/-! ## Helper lemmas about the percentile finder -/

theorem firstReachAux_ge (l : List ℕ) (t acc : ℚ) (i : ℕ) :
    i - 1 ≤ firstReachAux l t acc i := by
  induction l generalizing acc i with
  | nil => exact le_refl _
  | cons c rest ih =>
    simp only [firstReachAux]
    by_cases h : t ≤ acc + (c : ℚ)
    · rw [if_pos h]
      exact Nat.sub_le i 1
    · rw [if_neg h]
      exact le_trans (by omega) (ih (acc + (c : ℚ)) (i + 1))

theorem firstReachAux_lt (l : List ℕ) (t acc : ℚ) (i : ℕ) (hne : l ≠ []) :
    firstReachAux l t acc i < i + l.length := by
  induction l generalizing acc i with
  | nil => exact absurd rfl hne
  | cons c rest ih =>
    simp only [firstReachAux]
    by_cases h : t ≤ acc + (c : ℚ)
    · rw [if_pos h]
      simp
    · rw [if_neg h]
      cases rest with
      | nil =>
        simp only [firstReachAux]
        simp
      | cons d rest2 =>
        have := ih (acc + (c : ℚ)) (i + 1) (by simp)
        simpa [Nat.add_comm, Nat.add_left_comm, Nat.add_assoc] using
          Nat.lt_of_lt_of_le this (by simp [List.length_cons]; omega)

theorem firstReachAux_mono (l : List ℕ) (t1 t2 acc : ℚ) (i : ℕ) (ht : t1 ≤ t2) :
    firstReachAux l t1 acc i ≤ firstReachAux l t2 acc i := by
  induction l generalizing acc i with
  | nil => exact le_refl _
  | cons c rest ih =>
    simp only [firstReachAux]
    by_cases h2 : t2 ≤ acc + (c : ℚ)
    · rw [if_pos h2, if_pos (le_trans ht h2)]
    · rw [if_neg h2]
      by_cases h1 : t1 ≤ acc + (c : ℚ)
      · rw [if_pos h1]
        have := firstReachAux_ge rest t2 (acc + (c : ℚ)) (i + 1)
        omega
      · rw [if_neg h1]
        exact ih (acc + (c : ℚ)) (i + 1)

theorem findPercentileInHist_ok (counts : List ℕ) (pct : ℚ) (hne : counts ≠ []) :
    ∃ k : ℕ, findPercentileInHist counts pct = .ok k ∧ k < counts.length := by
  have hnotempty : counts.isEmpty = false := by simpa [List.isEmpty_iff] using hne
  refine ⟨firstReachAux counts (pct / 100 * (counts.sum : ℚ)) 0 0, ?_, ?_⟩
  · simp [findPercentileInHist, hnotempty]
  · simpa using firstReachAux_lt counts _ 0 0 hne

theorem findPercentileInHist_mono (counts : List ℕ) (p1 p2 : ℚ) (k1 k2 : ℕ)
    (hp : p1 ≤ p2)
    (h1 : findPercentileInHist counts p1 = .ok k1)
    (h2 : findPercentileInHist counts p2 = .ok k2) : k1 ≤ k2 := by
  by_cases hnotempty : counts.isEmpty
  · simp [findPercentileInHist, hnotempty] at h1
  · simp only [findPercentileInHist, hnotempty, Bool.false_eq_true, if_false] at h1 h2
    injection h1 with h1
    injection h2 with h2
    subst h1
    subst h2
    refine firstReachAux_mono counts _ _ 0 0 ?_
    have hS : (0 : ℚ) ≤ (counts.sum : ℚ) := by positivity
    have : p1 / 100 ≤ p2 / 100 := by linarith
    exact mul_le_mul_of_nonneg_right this hS

/-! ## Traces of `histFloat` and `histPercentiles32f` with default (NaN) range -/

theorem histFloat_f32_default (data : List F32) (n : ℕ) (m M : ℚ)
    (hscan : scanMinMax data = some (m, M)) :
    histFloat (Img.f32 data) n none none =
      if M ≤ 0 then .ok ([0], [0])
      else .ok ((List.range n).map fun i : ℕ => (0 : ℚ) + (i : ℚ) * ((M - 0) / (n : ℚ)),
                calcHistCounts data n 0 (M + (1/10) * ((M - 0) / (n : ℚ)))) := by
  have hne : data ≠ [] := scanMinMax_ne_nil data (m, M) hscan
  have himg := imgMinMax_eq_scan (Img.f32 data) data rfl hne
  rw [hscan] at himg
  by_cases hM : M ≤ 0
  · simp [histFloat, himg, hM]
  · simp [histFloat, himg, hM, calcHist]

theorem histPercentiles32f_char (data : List F32) (lp hp m M : ℚ)
    (hscan : scanMinMax data = some (m, M)) (hM : 0 < M) :
    ∃ k1 k2 : ℕ, k1 < 256 ∧ k2 < 256 ∧
      findPercentileInHist (calcHistCounts data 256 0 (M + (1/10) * ((M - 0) / ((256 : ℕ) : ℚ)))) lp
        = .ok k1 ∧
      findPercentileInHist (calcHistCounts data 256 0 (M + (1/10) * ((M - 0) / ((256 : ℕ) : ℚ)))) hp
        = .ok k2 ∧
      histPercentiles32f (Img.f32 data) lp hp =
        .ok ((0 : ℚ) + (k1 : ℚ) * ((M - 0) / ((256 : ℕ) : ℚ)),
             (0 : ℚ) + (k2 : ℚ) * ((M - 0) / ((256 : ℕ) : ℚ))) := by
  have hhf := histFloat_f32_default data 256 m M hscan
  rw [if_neg (not_le.mpr hM)] at hhf
  set counts := calcHistCounts data 256 0 (M + (1/10) * ((M - 0) / ((256 : ℕ) : ℚ)))
    with hcounts
  have hlen : counts.length = 256 := by
    rw [hcounts, calcHistCounts]
    simp
  have hcne : counts ≠ [] := by
    intro h
    rw [h] at hlen
    simp at hlen
  obtain ⟨k1, hk1, hk1lt⟩ := findPercentileInHist_ok counts lp hcne
  obtain ⟨k2, hk2, hk2lt⟩ := findPercentileInHist_ok counts hp hcne
  rw [hlen] at hk1lt hk2lt
  refine ⟨k1, k2, hk1lt, hk2lt, hk1, hk2, ?_⟩
  set bins := (List.range 256).map fun i : ℕ => (0 : ℚ) + (i : ℚ) * ((M - 0) / ((256 : ℕ) : ℚ))
    with hbins
  have hbinlen : bins.length = 256 := by
    rw [hbins]
    simp
  have hget : ∀ k : ℕ, k < 256 →
      vecGet bins k = .ok ((0 : ℚ) + (k : ℚ) * ((M - 0) / ((256 : ℕ) : ℚ))) := by
    intro k hk
    rw [vecGet, dif_pos (by rw [hbinlen]; exact hk)]
    congr 1
    simp [hbins, List.get_eq_getElem]
  simp only [histPercentiles32f, hhf, ← hcounts, hk1, hk2, ← hbins,
    hget k1 hk1lt, hget k2 hk2lt]

theorem histPercentiles32f_degenerate (data : List F32) (lp hp m M : ℚ)
    (hscan : scanMinMax data = some (m, M)) (hM : M ≤ 0) :
    histPercentiles32f (Img.f32 data) lp hp = .ok (0, 0) := by
  have hhf := histFloat_f32_default data 256 m M hscan
  rw [if_pos hM] at hhf
  have hfp : ∀ pct : ℚ, findPercentileInHist [0] pct = .ok 0 := by
    intro pct
    simp [findPercentileInHist, firstReachAux]
  simp only [histPercentiles32f, hhf, hfp]
  simp [vecGet]

/-- C3 (main part, as amended): for a Float32 buffer with at least one non-NaN
sample (witnessed by the min/max scan succeeding) and percentiles
`0 ≤ lowPct ≤ highPct ≤ 100`, `histPercentiles32f` succeeds and returns a pair with
`lowValue ≤ highValue`.  The all-NaN case does NOT return `(NaN, NaN)`; see the
counterexample. -/
theorem histPercentiles32f_low_le_high
    (data : List F32) (lp hp m M : ℚ)
    (hscan : scanMinMax data = some (m, M))
    (h0 : 0 ≤ lp) (h12 : lp ≤ hp) (h100 : hp ≤ 100) :
    ∃ lo hi : ℚ, histPercentiles32f (Img.f32 data) lp hp = .ok (lo, hi) ∧ lo ≤ hi := by
  by_cases hM : M ≤ 0
  · exact ⟨0, 0, histPercentiles32f_degenerate data lp hp m M hscan hM, le_refl 0⟩
  · obtain ⟨k1, k2, hk1lt, hk2lt, hk1, hk2, hres⟩ :=
      histPercentiles32f_char data lp hp m M hscan (not_le.mp hM)
    refine ⟨_, _, hres, ?_⟩
    have hkle : k1 ≤ k2 := findPercentileInHist_mono _ lp hp k1 k2 h12 hk1 hk2
    have hM0 : (0 : ℚ) < M := not_le.mp hM
    have hbs : (0 : ℚ) ≤ (M - 0) / ((256 : ℕ) : ℚ) :=
      div_nonneg (by linarith) (by positivity)
    have hmul : (k1 : ℚ) * ((M - 0) / ((256 : ℕ) : ℚ)) ≤ (k2 : ℚ) * ((M - 0) / ((256 : ℕ) : ℚ)) :=
      mul_le_mul_of_nonneg_right (by exact_mod_cast hkle) hbs
    linarith

/-- C3 witness: a concrete two-sample buffer. -/
theorem histPercentiles32f_low_le_high_witness :
    ∃ lo hi : ℚ, histPercentiles32f (Img.f32 [some 2, some 5]) 1 99 = .ok (lo, hi) ∧ lo ≤ hi :=
  histPercentiles32f_low_le_high [some 2, some 5] 1 99 2 5 (by decide)
    (by norm_num) (by norm_num) (by norm_num)

/-- C3 counterexample: on an all-NaN Float32 buffer, `histPercentiles32f` does not
return a `(NaN, NaN)` pair; the empty histogram reaches the percentile finder,
which fails with `InvalidArgument`. -/
theorem histPercentiles32f_allNaN_invalidArgument :
    histPercentiles32f (Img.f32 [none]) 1 99 = .error .invalidArgument := by
  rfl

/-- C4 (as amended): with the default (NaN) range, `histPercentiles32f` builds its
256-bin uniform histogram over `[0, max]` — the lower bound is the default 0, NOT
the buffer's minimum non-NaN value — with bin lower edges `i * (max / 256)`, and
maps the percentile indices to the corresponding bin lower-edge values. -/
theorem histPercentiles32f_bins_over_zero_to_max
    (data : List F32) (lp hp m M : ℚ)
    (hscan : scanMinMax data = some (m, M)) (hM : 0 < M) :
    ∃ (counts : List ℕ) (k1 k2 : ℕ), k1 < 256 ∧ k2 < 256 ∧
      histFloat (Img.f32 data) 256 none none =
        .ok ((List.range 256).map fun i : ℕ => (i : ℚ) * (M / 256), counts) ∧
      findPercentileInHist counts lp = .ok k1 ∧
      findPercentileInHist counts hp = .ok k2 ∧
      histPercentiles32f (Img.f32 data) lp hp =
        .ok ((k1 : ℚ) * (M / 256), (k2 : ℚ) * (M / 256)) := by
  obtain ⟨k1, k2, hk1lt, hk2lt, hk1, hk2, hres⟩ :=
    histPercentiles32f_char data lp hp m M hscan hM
  have hedge : ∀ i : ℕ, (0 : ℚ) + (i : ℚ) * ((M - 0) / ((256 : ℕ) : ℚ)) = (i : ℚ) * (M / 256) := by
    intro i
    push_cast
    ring
  refine ⟨calcHistCounts data 256 0 (M + (1/10) * ((M - 0) / ((256 : ℕ) : ℚ))),
    k1, k2, hk1lt, hk2lt, ?_, hk1, hk2, ?_⟩
  · have hhf := histFloat_f32_default data 256 m M hscan
    rw [if_neg (not_le.mpr hM)] at hhf
    rw [hhf]
    congr 1
    refine congrArg (fun l => (l, _)) (List.map_congr_left ?_)
    intro i _
    exact hedge i
  · rw [hres, hedge k1, hedge k2]

/-- C4 witness: a concrete one-sample buffer. -/
theorem histPercentiles32f_bins_over_zero_to_max_witness :
    ∃ (counts : List ℕ) (k1 k2 : ℕ), k1 < 256 ∧ k2 < 256 ∧
      histFloat (Img.f32 [some 1]) 256 none none =
        .ok ((List.range 256).map fun i : ℕ => (i : ℚ) * (1 / 256), counts) ∧
      findPercentileInHist counts 1 = .ok k1 ∧
      findPercentileInHist counts 99 = .ok k2 ∧
      histPercentiles32f (Img.f32 [some 1]) 1 99 =
        .ok ((k1 : ℚ) * (1 / 256), (k2 : ℚ) * (1 / 256)) :=
  histPercentiles32f_bins_over_zero_to_max [some 1] 1 99 1 1 (by decide) (by norm_num)

/-- C4 counterexample: for the buffer `[2.0]` the histogram's first bin lower edge
is 0 (the default minVal), not the buffer's minimum non-NaN value 2. -/
theorem histFloat_default_min_is_zero_not_bufferMin :
    (histFloat (Img.f32 [some 2]) 256 none none).toOption.map (fun p => p.1.head?)
      = some (some 0) ∧ scanMinMax [some 2] = some (2, 2) ∧ (0 : ℚ) ≠ 2 := by
  have h := histFloat_f32_default [some 2] 256 2 2 (by decide)
  rw [if_neg (by norm_num)] at h
  refine ⟨?_, by decide, by norm_num⟩
  rw [h]
  show some ((List.map (fun i : ℕ => (0 : ℚ) + (i : ℚ) * ((2 - 0) / ((256 : ℕ) : ℚ)))
    (List.range 256)).head?) = some (some 0)
  rw [List.head?_map]
  rw [show (List.range 256).head? = some 0 by rfl]
  simp

/-- C8: for a nonempty Float32 buffer whose every element is NaN, `imgMinMax`
returns `(NaN, NaN)` and `histFloat` with an unspecified (NaN) `maxVal` returns an
empty histogram — both bins and counts empty — without failing, for any `minVal`
and any `binCount`. -/
theorem histFloat_allNaN_empty (data : List F32) (minV : F32) (n : ℕ)
    (hne : data ≠ []) (hall : ∀ v ∈ data, v = none) :
    imgMinMax (Img.f32 data) = .ok (none, none) ∧
    histFloat (Img.f32 data) n minV none = .ok ([], []) := by
  have hscan : scanMinMax data = none := scanMinMaxAux_all_none data none hall
  have himg := imgMinMax_eq_scan (Img.f32 data) data rfl hne
  rw [hscan] at himg
  refine ⟨himg, ?_⟩
  cases minV with
  | none => simp [histFloat, himg]
  | some q => simp [histFloat, himg]

/-- C8 witness: a concrete all-NaN buffer. -/
theorem histFloat_allNaN_empty_witness :
    imgMinMax (Img.f32 [none, none]) = .ok (none, none) ∧
    histFloat (Img.f32 [none, none]) 10 none none = .ok ([], []) :=
  histFloat_allNaN_empty [none, none] none 10 (by decide) (by decide)

/-- C9: `histFloat` called with resolved (non-NaN) `minVal` and `maxVal` such that
`maxVal ≤ minVal` ignores the image and the bin count entirely and returns a single
bin at `minVal` with a single count 0, without failing. -/
theorem histFloat_degenerate_single_bin (img : Img) (n : ℕ) (lo hi : ℚ)
    (hle : hi ≤ lo) :
    histFloat img n (some lo) (some hi) = .ok ([lo], [0]) := by
  simp [histFloat, hle]

/-- C9 witness: the spec's own scenario, `minVal = maxVal = 5`. -/
theorem histFloat_degenerate_single_bin_witness :
    histFloat (Img.u8 []) 7 (some 5) (some 5) = .ok ([5], [0]) :=
  histFloat_degenerate_single_bin (Img.u8 []) 7 5 5 (le_refl 5)

/-! ## Helper lemmas about the integer histogram loop -/

theorem getD_set_lt (l : List ℕ) (i k x : ℕ) (hi : i < l.length) (hk : k < l.length) :
    (l.set i x).getD k 0 = if i = k then x else l.getD k 0 := by
  have hk2 : k < (l.set i x).length := by simpa using hk
  rw [List.getD_eq_getElem _ _ hk2, List.getElem_set, List.getD_eq_getElem _ _ hk]

theorem histCountLoop_spec (vals : List ℕ) (s : ℕ) :
    ∀ counts : List ℕ, (∀ v ∈ vals, v >>> s < counts.length) →
    ∃ res, histCountLoop vals s counts = .ok res ∧ res.length = counts.length ∧
      ∀ k, k < counts.length →
        res.getD k 0 = counts.getD k 0 + vals.countP (fun v => v >>> s == k) := by
  induction vals with
  | nil =>
    intro counts _
    exact ⟨counts, rfl, rfl, fun k _ => by simp⟩
  | cons v rest ih =>
    intro counts h
    have hv : v >>> s < counts.length := h v (by simp)
    have hbump : bumpAt counts (v >>> s)
        = .ok (counts.set (v >>> s) (counts.get ⟨v >>> s, hv⟩ + 1)) := by
      rw [bumpAt, dif_pos hv]
    obtain ⟨res, hres, hlen, hval⟩ :=
      ih (counts.set (v >>> s) (counts.get ⟨v >>> s, hv⟩ + 1))
        (fun w hw => by
          rw [List.length_set]
          exact h w (by simp [hw]))
    refine ⟨res, ?_, by rw [hlen, List.length_set], ?_⟩
    · simp only [histCountLoop, hbump]
      exact hres
    · intro k hk
      have hk2 : k < (counts.set (v >>> s) (counts.get ⟨v >>> s, hv⟩ + 1)).length := by
        simpa using hk
      rw [hval k hk2, getD_set_lt _ _ _ _ hv hk, List.countP_cons]
      have hget : counts.get ⟨v >>> s, hv⟩ = counts.getD (v >>> s) 0 := by
        rw [List.get_eq_getElem, List.getD_eq_getElem _ _ hv]
      by_cases hik : v >>> s = k
      · rw [if_pos hik]
        subst hik
        rw [hget]
        simp only [beq_self_eq_true, if_true]
        omega
      · rw [if_neg hik]
        have : (v >>> s == k) = false := by simpa using hik
        rw [this]
        simp

theorem histCountLoop_replicate (data : List ℕ) (s n : ℕ)
    (h : ∀ v ∈ data, v >>> s < n) :
    histCountLoop data s (List.replicate n 0) =
      .ok ((List.range n).map fun k : ℕ => data.countP fun v => v >>> s == k) := by
  obtain ⟨res, hres, hlen, hval⟩ :=
    histCountLoop_spec data s (List.replicate n 0) (by simpa using h)
  rw [hres]
  congr 1
  apply List.ext_getElem
  · rw [hlen]
    simp
  · intro k h1 h2
    have hkn : k < n := by simpa using h2
    have hk0 : k < (List.replicate n 0).length := by simpa using hkn
    have hv := hval k hk0
    rw [List.getD_eq_getElem _ _ h1] at hv
    rw [hv, List.getElem_map, List.getElem_range]
    rw [List.getD_eq_getElem _ _ hk0, List.getElem_replicate]
    omega

theorem shiftRight_lt_shiftRight (v w s : ℕ) (hv : v < 2 ^ w) (hs : s ≤ w) :
    v >>> s < 2 ^ w >>> s := by
  rw [Nat.shiftRight_eq_div_pow, Nat.shiftRight_eq_div_pow]
  rw [Nat.pow_div hs (by norm_num)]
  rw [Nat.div_lt_iff_lt_mul (by positivity)]
  calc v < 2 ^ w := hv
    _ = 2 ^ (w - s) * 2 ^ s := by
        rw [← pow_add]
        congr 1
        omega

/-! ## Summation helpers for histogram counts -/

theorem sum_map_range_add (n : ℕ) (A B : ℕ → ℕ) :
    ((List.range n).map fun k => A k + B k).sum
      = ((List.range n).map A).sum + ((List.range n).map B).sum := by
  induction n with
  | zero => simp
  | succ n ih =>
    rw [List.range_succ]
    simp only [List.map_append, List.sum_append, ih, List.map_cons, List.map_nil,
      List.sum_cons, List.sum_nil]
    omega

theorem sum_map_range_indicator (n j : ℕ) (hj : j < n) :
    ((List.range n).map fun k => if j = k then 1 else 0).sum = 1 := by
  induction n with
  | zero => omega
  | succ n ih =>
    rw [List.range_succ, List.map_append, List.sum_append]
    by_cases hjn : j = n
    · subst hjn
      have hz : ((List.range j).map fun k => if j = k then 1 else 0).sum = 0 := by
        apply List.sum_eq_zero
        intro x hx
        obtain ⟨k, hk, rfl⟩ := List.mem_map.mp hx
        have : k < j := List.mem_range.mp hk
        rw [if_neg (by omega)]
      simp [hz]
    · have hjn2 : j < n := by omega
      rw [ih hjn2]
      simp [hjn]

theorem sum_map_range_countP {α : Type} (xs : List α) (p : α → Bool) (f : α → ℕ) (n : ℕ)
    (h : ∀ x ∈ xs, p x = true → f x < n) :
    ((List.range n).map fun i => xs.countP fun x => p x && (f x == i)).sum = xs.countP p := by
  induction xs with
  | nil =>
    simp only [List.countP_nil]
    exact List.sum_eq_zero fun x hx => by
      obtain ⟨k, _, rfl⟩ := List.mem_map.mp hx
      rfl
  | cons a xs ih =>
    have hrest : ∀ x ∈ xs, p x = true → f x < n := fun x hx => h x (by simp [hx])
    have hmapeq : ((List.range n).map fun i => (a :: xs).countP fun x => p x && (f x == i))
        = (List.range n).map fun i =>
            (xs.countP fun x => p x && (f x == i))
              + if (p a && (f a == i)) = true then 1 else 0 := by
      apply List.map_congr_left
      intro i _
      rw [List.countP_cons]
    rw [hmapeq, sum_map_range_add, ih hrest, List.countP_cons]
    by_cases hpa : p a = true
    · have hind : ((List.range n).map fun i => if (p a && (f a == i)) = true then 1 else 0).sum
          = 1 := by
        have hfa : f a < n := h a (by simp) hpa
        have hcong : ∀ i ∈ List.range n,
            (if (p a && (f a == i)) = true then 1 else 0) = if f a = i then 1 else 0 := by
          intro i _
          rw [hpa]
          by_cases hfi : f a = i
          · simp [hfi]
          · have : (f a == i) = false := by simpa using hfi
            simp [this, hfi]
        rw [List.map_congr_left hcong]
        exact sum_map_range_indicator n (f a) hfa
      rw [hind, hpa]
      simp
    · have hpa2 : p a = false := by simpa using hpa
      have hind : ((List.range n).map fun i => if (p a && (f a == i)) = true then 1 else 0).sum
          = 0 := by
        apply List.sum_eq_zero
        intro x hx
        obtain ⟨k, _, rfl⟩ := List.mem_map.mp hx
        rw [hpa2]
        simp
      rw [hind, hpa2]
      simp

theorem sum_map_range_count_eq_length {α : Type} (xs : List α) (f : α → ℕ) (n : ℕ)
    (h : ∀ x ∈ xs, f x < n) :
    ((List.range n).map fun i => xs.countP fun x => f x == i).sum = xs.length := by
  have hcong : ∀ i ∈ List.range n,
      (xs.countP fun x => f x == i) = xs.countP fun x => (fun _ => true) x && (f x == i) := by
    intro i _
    apply List.countP_congr
    intro x _
    simp
  rw [List.map_congr_left hcong,
    sum_map_range_countP xs (fun _ => true) f n (fun x hx _ => h x hx)]
  exact congrFun List.countP_true xs

/-! ## Helper lemmas about the uniform float binning -/

theorem binIndex_nonneg (lo hi v : ℚ) (n : ℕ) (hv : lo ≤ v) (hlh : lo < hi) :
    0 ≤ binIndex lo hi n v := by
  apply Int.floor_nonneg.mpr
  apply div_nonneg
  · apply mul_nonneg (by linarith) (by positivity)
  · linarith

theorem binIndex_lt (lo hi v : ℚ) (n : ℕ) (hn : 1 ≤ n) (hv2 : lo ≤ v) (hv : v < hi)
    (hlh : lo < hi) : binIndex lo hi n v < n := by
  rw [binIndex]
  apply Int.floor_lt.mpr
  rw [div_lt_iff (by linarith)]
  have hn0 : (0 : ℚ) < (n : ℚ) := by
    have : (1 : ℚ) ≤ (n : ℚ) := by exact_mod_cast hn
    linarith
  calc (v - lo) * (n : ℚ) < (hi - lo) * (n : ℚ) :=
        mul_lt_mul_of_pos_right (by linarith) hn0
    _ = (n : ℚ) * (hi - lo) := by ring

theorem calcHistCounts_sum (xs : List F32) (n : ℕ) (lo hi : ℚ) (hn : 1 ≤ n)
    (hlh : lo < hi) :
    (calcHistCounts xs n lo hi).sum
      = (xs.filterMap id).countP fun v => decide (lo ≤ v) && decide (v < hi) := by
  rw [calcHistCounts]
  have hcong : ∀ i ∈ List.range n,
      ((xs.filterMap id).countP fun v => decide (lo ≤ v) && decide (v < hi) &&
        (binIndex lo hi n v == (i : ℤ)))
      = (xs.filterMap id).countP fun v =>
          (decide (lo ≤ v) && decide (v < hi)) && ((binIndex lo hi n v).toNat == i) := by
    intro i _
    apply List.countP_congr
    intro v _
    by_cases h1 : lo ≤ v
    · by_cases h2 : v < hi
      · have hnn := binIndex_nonneg lo hi v n h1 hlh
        simp [h1, h2, beq_iff_eq]
        omega
      · simp [h2]
    · simp [h1]
  rw [List.map_congr_left hcong]
  exact sum_map_range_countP (xs.filterMap id)
    (fun v => decide (lo ≤ v) && decide (v < hi))
    (fun v => (binIndex lo hi n v).toNat) n
    (fun v _ hp => by
      have h1 : lo ≤ v := by
        have := (Bool.and_eq_true _ _).mp hp
        exact of_decide_eq_true this.1
      have h2 : v < hi := by
        have := (Bool.and_eq_true _ _).mp hp
        exact of_decide_eq_true this.2
      have hlt := binIndex_lt lo hi v n hn h1 h2 hlh
      have hnn := binIndex_nonneg lo hi v n h1 hlh
      show (binIndex lo hi n v).toNat < n
      omega)

/-- C7 (as amended): for a CV_8U buffer and shift `s ≤ 8` (resp. CV_16U and
`s ≤ 16`), the bit-shift `histInt` overload returns exactly `256 >> s`
(resp. `65536 >> s`) counting slots, slot `k` holding the exact number of samples
`v` with `v >> s = k`; for larger shifts the slot vector is empty and the
increment indexes out of range (see the counterexample). -/
theorem histIntShift_exact_counts :
    (∀ (data : List ℕ) (s : ℕ), (∀ v ∈ data, v < 256) → s ≤ 8 →
      histIntShift (Img.u8 data) s =
        .ok ((List.range (256 >>> s)).map fun k : ℕ => data.countP fun v => v >>> s == k)) ∧
    (∀ (data : List ℕ) (s : ℕ), (∀ v ∈ data, v < 65536) → s ≤ 16 →
      histIntShift (Img.u16 data) s =
        .ok ((List.range (65536 >>> s)).map fun k : ℕ => data.countP fun v => v >>> s == k)) := by
  constructor
  · intro data s hv hs
    have h8 : (256 : ℕ) = 2 ^ 8 := by norm_num
    have hbound : ∀ v ∈ data, v >>> s < 256 >>> s := by
      intro v hvm
      rw [h8]
      exact shiftRight_lt_shiftRight v 8 s (by rw [← h8]; exact hv v hvm) hs
    simp only [histIntShift]
    exact histCountLoop_replicate data s (256 >>> s) hbound
  · intro data s hv hs
    have h16 : (65536 : ℕ) = 2 ^ 16 := by norm_num
    have hbound : ∀ v ∈ data, v >>> s < 65536 >>> s := by
      intro v hvm
      rw [h16]
      exact shiftRight_lt_shiftRight v 16 s (by rw [← h16]; exact hv v hvm) hs
    simp only [histIntShift]
    exact histCountLoop_replicate data s (65536 >>> s) hbound

/-- C7 witness: an 8U buffer with shift 2 (64 slots). -/
theorem histIntShift_exact_counts_witness :
    histIntShift (Img.u8 [0, 64, 255]) 2 =
      .ok ((List.range (256 >>> 2)).map fun k : ℕ =>
        [0, 64, 255].countP fun v => v >>> 2 == k) :=
  histIntShift_exact_counts.1 [0, 64, 255] 2 (by decide) (by decide)

/-- C7 counterexample: with shift 9 on a CV_8U buffer, `256 >> 9 = 0` slots are
allocated, yet the sample 0 must be counted in slot `0 >> 9 = 0`; the source's
`counts[0]++` indexes an empty `std::vector` (undefined behavior, modelled as
`Err.oob`), so no histogram with the claimed slots exists for that shift. -/
theorem histIntShift_oob_shift9 :
    histIntShift (Img.u8 [0]) 9 = .error .oob := by
  rfl

/-- C6 (as amended): the sum of `histInt`'s counts equals the total sample count
(integer buffers have no NaN); the sum of the default-range `histFloat` counts
equals the number of non-NaN samples provided every non-NaN sample is ≥ 0 — the
histogram only counts samples inside its range `[0, max + 0.1*binSize)`, and with
the default `minVal = 0` any negative sample is silently excluded (see the
counterexample). -/
theorem hist_counts_sum :
    (∀ data : List ℕ, (∀ v ∈ data, v < 256) →
      ∃ c, histInt (Img.u8 data) = .ok c ∧ c.sum = data.length) ∧
    (∀ data : List ℕ, (∀ v ∈ data, v < 65536) →
      ∃ c, histInt (Img.u16 data) = .ok c ∧ c.sum = data.length) ∧
    (∀ (data : List F32) (n : ℕ) (m M : ℚ), 1 ≤ n →
      scanMinMax data = some (m, M) → 0 < M →
      (∀ q : ℚ, (some q : F32) ∈ data → 0 ≤ q) →
      ∃ bins c, histFloat (Img.f32 data) n none none = .ok (bins, c)
        ∧ c.sum = (data.filterMap id).length) := by
  refine ⟨?_, ?_, ?_⟩
  · intro data hv
    have hbound : ∀ v ∈ data, v >>> 0 < 256 := by
      intro v hm
      rw [Nat.shiftRight_zero]
      exact hv v hm
    refine ⟨_, by simp only [histInt]; exact histCountLoop_replicate data 0 256 hbound, ?_⟩
    exact sum_map_range_count_eq_length data (fun v => v >>> 0) 256 hbound
  · intro data hv
    have hbound : ∀ v ∈ data, v >>> 0 < 65536 := by
      intro v hm
      rw [Nat.shiftRight_zero]
      exact hv v hm
    refine ⟨_, by simp only [histInt]; exact histCountLoop_replicate data 0 65536 hbound, ?_⟩
    exact sum_map_range_count_eq_length data (fun v => v >>> 0) 65536 hbound
  · intro data n m M hn hscan hM hpos
    have hhf := histFloat_f32_default data n m M hscan
    rw [if_neg (not_le.mpr hM)] at hhf
    have hn0 : (0 : ℚ) < (n : ℚ) := by
      have : (1 : ℚ) ≤ (n : ℚ) := by exact_mod_cast hn
      linarith
    have hbin : (0 : ℚ) < (M - 0) / (n : ℚ) := div_pos (by linarith) hn0
    have hlh : (0 : ℚ) < M + (1/10) * ((M - 0) / (n : ℚ)) := by linarith
    refine ⟨_, _, hhf, ?_⟩
    rw [calcHistCounts_sum data n 0 (M + (1/10) * ((M - 0) / (n : ℚ))) hn hlh]
    apply List.countP_eq_length.mpr
    intro v hvmem0
    have hvmem : (some v : F32) ∈ data := by
      obtain ⟨a, ha, hav⟩ := List.mem_filterMap.mp hvmem0
      rw [id_eq] at hav
      rw [hav] at ha
      exact ha
    have h0v : 0 ≤ v := hpos v hvmem
    have hvM : v ≤ M := (scanMinMax_bounds data m M hscan v hvmem).2
    have hvhi : v < M + (1/10) * ((M - 0) / (n : ℚ)) := by linarith
    simp only [Bool.and_eq_true, decide_eq_true_eq]
    exact ⟨h0v, hvhi⟩

/-- C6 witness: a concrete Float32 buffer with two non-negative samples. -/
theorem hist_counts_sum_witness :
    ∃ bins c, histFloat (Img.f32 [some 1, some 2]) 4 none none = .ok (bins, c)
      ∧ c.sum = (([some 1, some 2] : List F32).filterMap id).length :=
  hist_counts_sum.2.2 [some 1, some 2] 4 1 2 (by norm_num) (by decide) (by norm_num)
    (by
      intro q hq
      simp at hq
      rcases hq with rfl | rfl <;> norm_num)

/-- C6 counterexample: the buffer `[-5.0, 3.0]` has two non-NaN samples but the
default-range histogram (here `binCount = 1`, range `[0, 3.3)`) counts only one of
them — the negative sample falls below the default `minVal = 0` and is dropped —
so `sum(counts) = 1 ≠ 2`. -/
theorem histFloat_counts_sum_misses_below_range :
    histFloat (Img.f32 [some (-5), some 3]) 1 none none = .ok ([0], [1]) ∧
    (([some (-5), some 3] : List F32).filterMap id).length = 2 ∧ (1 : ℕ) ≠ 2 := by
  have h := histFloat_f32_default [some (-5), some 3] 1 (-5) 3 (by decide)
  rw [if_neg (by norm_num)] at h
  have harith : (3 : ℚ) + 1/10 * ((3 - 0) / ((1 : ℕ) : ℚ)) = 33/10 := by norm_num
  rw [harith] at h
  have hcounts : calcHistCounts [some (-5), some 3] 1 0 (33/10) = [1] := by
    rw [calcHistCounts, show List.range 1 = [0] from rfl]
    norm_num [List.countP_cons, List.countP_nil, binIndex, List.filterMap_cons]
  have hbins : (List.range 1).map (fun i : ℕ => (0 : ℚ) + (i : ℚ) * ((3 - 0) / ((1 : ℕ) : ℚ)))
      = [0] := by
    rw [show List.range 1 = [0] from rfl]
    simp
  rw [hcounts, hbins] at h
  exact ⟨h, by decide, by norm_num⟩

/-- C5 (as amended): on every single-channel buffer (samples `xs`), `imgTo8u`
computes exactly the spec's rescale with the clamp corrected to
`convertScaleAbs`'s absolute-value semantics: when `highVal ≤ lowVal` the buffer's
own min/max over non-NaN samples are substituted, `scale = 255/(highVal-lowVal)`,
`offset = -scale*lowVal`, and per sample
`output = clamp(round(|scale*input + offset|), 0, 255)` — a negative product maps
to its absolute value (possibly saturating at 255), NOT to 0. -/
theorem imgTo8u_matches_abs_rescale_spec (img : Img) (xs : List F32) (lo hi : ℚ)
    (hx : samples1 img = some xs) :
    (imgTo8u img lo hi).toOption = (rescaleToByteRangeSpec xs lo hi).map Img.u8 := by
  by_cases hle : hi ≤ lo
  · cases hscan : scanMinMax xs with
    | none =>
      by_cases hnil : xs = []
      · subst hnil
        have hmml : minMaxLoc img = .error (.bail "minMaxLoc: empty input") := by
          simp [minMaxLoc, hx]
        simp [imgTo8u, rescaleToByteRangeSpec, hle, imgMinMax, hmml, hscan, Except.toOption]
      · have himg := imgMinMax_eq_scan img xs hx hnil
        rw [hscan] at himg
        simp [imgTo8u, rescaleToByteRangeSpec, hle, himg, hscan, Except.toOption]
    | some p =>
      obtain ⟨a, b⟩ := p
      have hne := scanMinMax_ne_nil xs (a, b) hscan
      have himg := imgMinMax_eq_scan img xs hx hne
      rw [hscan] at himg
      simp [imgTo8u, rescaleToByteRangeSpec, hle, himg, hscan, hx, Except.toOption,
        convertScaleAbsSample, satU8]
  · simp [imgTo8u, rescaleToByteRangeSpec, hle, hx, Except.toOption,
      convertScaleAbsSample, satU8]

/-- C5 witness: a concrete one-sample Float32 buffer with an explicit range. -/
theorem imgTo8u_matches_abs_rescale_spec_witness :
    (imgTo8u (Img.f32 [some 1]) 0 2).toOption
      = (rescaleToByteRangeSpec [some 1] 0 2).map Img.u8 :=
  imgTo8u_matches_abs_rescale_spec (Img.f32 [some 1]) [some 1] 0 2 rfl

/-- C5 counterexample: with `lowVal = 10`, `highVal = 20` and sample 0, the scaled
product is `-255`; the claim's formula `clamp(round(scale*input+offset), 0, 255)`
predicts 0, but `convertScaleAbs` takes the absolute value first and the code
produces 255. -/
theorem imgTo8u_negative_product_not_clamped_to_zero :
    imgTo8u (Img.f32 [some 0]) 10 20 = .ok (Img.u8 [255]) ∧
    min 255 (max 0 (cvRoundQ (255 / ((20 : ℚ) - 10) * 0 + -(255 / ((20 : ℚ) - 10)) * 10)))
      = (0 : ℤ) ∧
    (255 : ℕ) ≠ 0 := by
  have harg : 255 / ((20 : ℚ) - 10) * 0 + -(255 / ((20 : ℚ) - 10)) * 10 = -255 := by
    norm_num
  refine ⟨?_, ?_, by norm_num⟩
  · have hsample : convertScaleAbsSample (255 / ((20 : ℚ) - 10))
        (-(255 / ((20 : ℚ) - 10)) * 10) (some 0) = 255 := by
      rw [convertScaleAbsSample, harg]
      have habs : |(-255 : ℚ)| = 255 := by norm_num
      rw [habs]
      have hround : cvRoundQ 255 = 255 := by
        simp only [cvRoundQ]
        norm_num
      rw [hround]
      rfl
    rw [imgTo8u, if_neg (by norm_num : ¬((20 : ℚ) ≤ 10))]
    show Except.ok (Img.u8 ([some 0].map (convertScaleAbsSample (255 / ((20 : ℚ) - 10))
      (-(255 / ((20 : ℚ) - 10)) * 10)))) = Except.ok (Img.u8 [255])
    rw [List.map_cons, List.map_nil, hsample]
  · rw [harg]
    have hround : cvRoundQ (-255) = -255 := by
      simp only [cvRoundQ]
      norm_num
    rw [hround]
    rfl

/-- C1 (code bug): a single-channel Int32 buffer with a non-tiff target is routed
into the auto-range branch (the source's own comment says "for 16U, 32F, 32S to
non-tiff, auto-range to 8u"), but `histPercentiles` only implements 8U/16U/32F and
bails with "Unsupported image type", so `convertForSave` throws instead of
rescaling and returning `wasChanged = true`. -/
theorem convertForSave_int32_png_throws :
    convertForSave (Img.s32 [0]) "png" =
      .error (.bail "histPercentiles: Unsupported image type") := by
  rfl

/-- C2 (as amended, forward direction): whenever `convertForSave` reports
`wasChanged = false`, the returned buffer is the input itself (`dst = img`, the
no-op aliasing paths), hence encoding- and layout-identical.  The converse fails;
see the counterexample. -/
theorem convertForSave_unchanged_implies_identity :
    ∀ (img : Img) (ext : String) (dst : Img),
      convertForSave img ext = .ok (dst, false) → dst = img := by
  intro img ext dst h
  rw [convertForSave] at h
  split_ifs at h <;>
    (repeat' (split at h)) <;>
    simp at h <;>
    (first | exact h.symm | exact h)

/-- C2 witness: the ppm no-op path on an 8UC3 buffer. -/
theorem convertForSave_unchanged_identity_witness :
    (Img.u8c3 [(1, 2, 3)] : Img) = Img.u8c3 [(1, 2, 3)] :=
  convertForSave_unchanged_implies_identity (Img.u8c3 [(1, 2, 3)]) "ppm"
    (Img.u8c3 [(1, 2, 3)]) rfl

/-- C2 counterexample: an 8U buffer saved to pgm takes the `convertTo(CV_8UC1)`
path, which copies the values into a buffer of identical encoding (CV_8U = CV_8UC1)
and identical layout — the returned buffer even equals the input — yet
`wasChanged = true`, refuting the claimed `iff`. -/
theorem convertForSave_pgm_8u_copy_sets_changed :
    convertForSave (Img.u8 [5]) "pgm" = .ok (Img.u8 [5], true) := by
  rfl

/-- C10: for a 16U/32S/32F buffer and a ppm/pbm/pgm target (all non-tiff), the
first branch of `convertForSave` — the 1st/99th percentile rescale-to-byte path —
is taken, so the ppm channel-replication and pbm/pgm byte-cast actions are never
applied to these types (their cases in those branches are dead code; only
already-8-bit buffers reach them). -/
theorem convertForSave_rescale_precedence :
    ∀ (img : Img) (ext : String),
      (ext = "ppm" ∨ ext = "pbm" ∨ ext = "pgm") →
      (img.type = .CV_16U ∨ img.type = .CV_32S ∨ img.type = .CV_32F) →
      convertForSave img ext =
        (match histPercentiles img 1 99 with
         | .error e => .error e
         | .ok t =>
           match imgTo8u img t.1 t.2 with
           | .error e => .error e
           | .ok dst => .ok (dst, true)) := by
  intro img ext hext htype
  have hT : isTiffExt ext = false := by
    rcases hext with rfl | rfl | rfl <;> rfl
  have hb : (img.type == .CV_16U || img.type == .CV_32S || img.type == .CV_32F) = true := by
    rcases htype with h | h | h <;> rw [h] <;> rfl
  have hcond : ((img.type == .CV_16U || img.type == .CV_32S || img.type == .CV_32F)
      && !isTiffExt ext) = true := by
    rw [hb, hT]
    rfl
  rw [convertForSave, if_pos hcond]

/-- C10 witness: a 16U buffer with the ppm target takes the rescale path. -/
theorem convertForSave_rescale_precedence_witness :
    convertForSave (Img.u16 [7]) "ppm" =
      (match histPercentiles (Img.u16 [7]) 1 99 with
       | .error e => .error e
       | .ok t =>
         match imgTo8u (Img.u16 [7]) t.1 t.2 with
         | .error e => .error e
         | .ok dst => .ok (dst, true)) :=
  convertForSave_rescale_precedence (Img.u16 [7]) "ppm" (Or.inl rfl) (Or.inl rfl)
